import Mathlib

/-!
Shallow embedding of `mindocr/data/transforms/general_transforms.py`
(the geometry-aware transform stages: `ScalePadImage` and
`RandomCropWithBBox` with its `_find_crop` search and `hand_bounds`
boundary repair).

Images are modelled by their `(height, width)` dimensions: no claim
concerns pixel contents.  Coordinates are exact rationals; `np.round`
and `cvRound` are both round-half-to-even, modelled by `npRound`.
The shapely polygon/rectangle intersection used by `hand_bounds` is
modelled by Sutherland-Hodgman half-plane clipping of the polygon
against the crop rectangle, which coincides with the geometric
intersection for the (convex) polygons exercised here; the `intersects`
test is modelled as the clip being non-empty.
-/

namespace MindOCR

/-- A 2-D point (x, y) in image pixel space, exact rational coordinates. -/
structure Pt where
  x : ℚ
  y : ℚ
  deriving DecidableEq

/-- A polygon: an ordered sequence of vertices (not closed). -/
abbrev Poly := List Pt

/-- The mutable record threaded through the pipeline.  The image is
modelled by its (height, width); `none` for an optional field models
the dict key being absent. -/
structure Record where
  image : ℕ × ℕ
  polys : Option (List Poly) := none
  texts : Option (List String) := none
  ignore_tags : Option (List Bool) := none
  shape : Option (List ℚ) := none
  deriving DecidableEq

/-- `np.round` / `cvRound`: round half to even. -/
def npRound (q : ℚ) : ℤ :=
  let f := ⌊q⌋
  let frac := q - f
  if frac < 1/2 then f
  else if 1/2 < frac then f + 1
  else if f % 2 = 0 then f else f + 1

/-- `min(target_size / size)` of `ScalePadImage.__call__`. -/
def scalePadScale (target : ℕ × ℕ) (size : ℕ × ℕ) : ℚ :=
  min ((target.1 : ℚ) / size.1) ((target.2 : ℚ) / size.2)

/-- `ScalePadImage.__call__`: scale uniformly by `min(target/size)`,
resize to `round(scale*size)`, pad bottom/right to `target`, scale
`polys` by the same scalar, record `shape = [h, w, scale, scale]`.
`np.pad` raises on a negative pad width, modelled by `none`. -/
def scalePadImage (target : ℕ × ℕ) (data : Record) : Option Record :=
  let size := data.image
  let scale := scalePadScale target size
  let nh := npRound (scale * size.1)
  let nw := npRound (scale * size.2)
  if nh ≤ (target.1 : ℤ) ∧ nw ≤ (target.2 : ℤ) then
    some { data with
      image := target
      polys := data.polys.map (fun ps =>
        ps.map (fun poly => poly.map (fun p => ⟨p.x * scale, p.y * scale⟩)))
      shape := some [(size.1 : ℚ), (size.2 : ℚ), scale, scale] }
  else none

/-- A closed half-plane `a*x + b*y ≤ c`. -/
structure HalfPlane where
  a : ℚ
  b : ℚ
  c : ℚ

/-- The linear form of a half-plane evaluated at a point. -/
def hpEval (hp : HalfPlane) (p : Pt) : ℚ := hp.a * p.x + hp.b * p.y

/-- The point where segment `s`-`e` crosses the boundary line of `hp`. -/
def segCross (hp : HalfPlane) (s e : Pt) : Pt :=
  let t := (hp.c - hpEval hp s) / (hpEval hp e - hpEval hp s)
  ⟨s.x + t * (e.x - s.x), s.y + t * (e.y - s.y)⟩

/-- The cyclic edge list of a polygon. -/
def polyEdges (vs : Poly) : List (Pt × Pt) := vs.zip (vs.rotate 1)

/-- One Sutherland-Hodgman pass: clip `vs` against the half-plane `hp`. -/
def clipHalfPlane (hp : HalfPlane) (vs : Poly) : Poly :=
  (polyEdges vs).flatMap (fun se =>
    if hpEval hp se.2 ≤ hp.c then
      if hpEval hp se.1 ≤ hp.c then [se.2] else [segCross hp se.1 se.2, se.2]
    else
      if hpEval hp se.1 ≤ hp.c then [segCross hp se.1 se.2] else [])

/-- The four half-planes of the crop rectangle `[0, w] × [0, h]`. -/
def rectHalfPlanes (w h : ℚ) : List HalfPlane :=
  [⟨-1, 0, 0⟩, ⟨1, 0, w⟩, ⟨0, -1, 0⟩, ⟨0, 1, h⟩]

/-- Modelled from the source's call into shapely,
`crop_polys.intersection(poly)`: the geometric intersection of the
(convex) polygon with the crop rectangle, computed by successive
half-plane clipping. -/
def rectClip (w h : ℚ) (vs : Poly) : Poly :=
  (rectHalfPlanes w h).foldl (fun acc hp => clipHalfPlane hp acc) vs

/-- Twice the signed area of a polygon (shoelace sum over cyclic edges). -/
def shoelace (vs : Poly) : ℚ :=
  (polyEdges vs).foldl (fun acc se => acc + (se.1.x * se.2.y - se.2.x * se.1.y)) 0

/-- Modelled from the source's `inter_poly.area` (shapely): the absolute
geometric area of the polygon. -/
def polyArea (vs : Poly) : ℚ := |shoelace vs| / 2

/-- The closed exterior ring that shapely's `polygon.exterior.coords`
yields: the vertex list with the first vertex repeated at the end. -/
def exteriorRing (vs : Poly) : Poly := vs ++ vs.take 1

/-- `RandomCropWithBBox.polygon2numpy`: the exterior ring coordinates with
the closing duplicate vertex dropped (the `[:-1]` slice). -/
def polygon2numpy (ring : Poly) : Poly := ring.dropLast

/-- `RandomCropWithBBox.hand_bounds` (`thresh_area` defaults to 8):
intersect every polygon with the crop rectangle `[0, 0, w, h]` built from
the current image dimensions; keep the intersection (with the closing
ring vertex dropped) together with its ignore tag when the polygon
intersects the rectangle and the intersection area reaches the
threshold; silently drop the instance otherwise.  `texts` is left
untouched, exactly as in the source.  (`polys` and `ignore_tags` are
always present at the call site, having been set by `__call__`.) -/
def handBounds (thresh : ℚ) (data : Record) : Record :=
  let h := data.image.1
  let w := data.image.2
  let polys := data.polys.getD []
  let dontcare := data.ignore_tags.getD []
  let kept := (polys.zip dontcare).filterMap (fun pt =>
    let inter := rectClip (w : ℚ) (h : ℚ) pt.1
    if inter.isEmpty = false ∧ thresh ≤ polyArea inter then
      some (polygon2numpy (exteriorRing inter), pt.2)
    else none)
  { data with polys := some (kept.map Prod.fst),
              ignore_tags := some (kept.map Prod.snd) }

/-- Minimum of a list of integers (first element seeds the fold; numpy
raises on an empty array, and polygons here are non-empty vertex lists,
so the `0` default is never exercised). -/
def zListMin : List ℤ → ℤ
  | [] => 0
  | a :: as => as.foldl min a

/-- Maximum of a list of integers. -/
def zListMax : List ℤ → ℤ
  | [] => 0
  | a :: as => as.foldl max a

/-- Minimum of a list of rationals. -/
def qListMin : List ℚ → ℚ
  | [] => 0
  | a :: as => as.foldl min a

/-- Maximum of a list of rationals. -/
def qListMax : List ℚ → ℚ
  | [] => 0
  | a :: as => as.foldl max a

/-- `np.maximum(np.round(poly).astype(np.int32), 0)` at one vertex. -/
def clampPt (p : Pt) : ℤ × ℤ := (max (npRound p.x) 0, max (npRound p.y) 0)

/-- The integer bounding box `_find_crop` computes for one polygon:
vertex coordinates rounded and clamped at 0 (NOT at the upper bound),
maxima exclusive (`max + 1`). -/
structure Box where
  xMin : ℤ
  xMax : ℤ
  yMin : ℤ
  yMax : ℤ

/-- The bounding box of lines 304-306 of the source. -/
def polyBox (poly : Poly) : Box :=
  let pts := poly.map clampPt
  { xMin := zListMin (pts.map Prod.fst)
    xMax := zListMax (pts.map Prod.fst) + 1
    yMin := zListMin (pts.map Prod.snd)
    yMax := zListMax (pts.map Prod.snd) + 1 }

/-- The early-exit test of `_find_crop` (line 310): the box exceeds the
image bounds.  `size` is `(height, width)`.  The `< 0` disjuncts are
kept from the source even though the clamp at 0 makes them unreachable. -/
def outOfBoundsBox (size : ℕ × ℕ) (poly : Poly) : Bool :=
  let b := polyBox poly
  decide (b.xMin < 0 ∨ b.yMin < 0 ∨ (size.2 : ℤ) < b.xMax ∨ (size.1 : ℤ) < b.yMax)

/-- The non-ignored polygons (`_find_crop` line 297). -/
def nonIgnoredOf (polys : List Poly) (tags : List Bool) : List Poly :=
  (polys.zip tags).filterMap (fun pt => if pt.2 then none else some pt.1)

/-- Row `i` of the height occupancy array is marked by some polygon box. -/
def occupiedH (polys : List Poly) (i : ℕ) : Bool :=
  polys.any (fun poly =>
    let b := polyBox poly
    decide (b.yMin ≤ (i : ℤ) ∧ (i : ℤ) < b.yMax))

/-- Column `j` of the width occupancy array is marked by some polygon box. -/
def occupiedW (polys : List Poly) (j : ℕ) : Bool :=
  polys.any (fun poly =>
    let b := polyBox poly
    decide (b.xMin ≤ (j : ℤ) ∧ (j : ℤ) < b.xMax))

/-- `np.where(h_array == 0)[0]`: ascending indices of free rows. -/
def hAvailOf (size : ℕ × ℕ) (polys : List Poly) (tags : List Bool) : List ℕ :=
  (List.range size.1).filter (fun i => ! occupiedH (nonIgnoredOf polys tags) i)

/-- `np.where(w_array == 0)[0]`: ascending indices of free columns. -/
def wAvailOf (size : ℕ × ℕ) (polys : List Poly) (tags : List Bool) : List ℕ :=
  (List.range size.2).filter (fun j => ! occupiedW (nonIgnoredOf polys tags) j)

/-- `np.ceil(size * self._ratio).astype(np.int32)`. -/
def minSizeOf (frac : ℚ) (size : ℕ × ℕ) : ℤ × ℤ :=
  (⌈frac * size.1⌉, ⌈frac * size.2⌉)

/-- `np.sort(np.random.choice(avail, size=2))`: two draws from the
available set (with replacement, numpy's default), sorted.  The raw
draws `r1`, `r2` index into the set modulo its length. -/
def sampleSorted (avail : List ℕ) (r1 r2 : ℕ) : ℕ × ℕ :=
  let a := avail.getD (r1 % avail.length) 0
  let b := avail.getD (r2 % avail.length) 0
  (min a b, max a b)

/-- The candidate rejection `((end - start) < min_size).any()` (line 325). -/
def rejectCandidate (minSize : ℤ × ℤ) (span : ℤ × ℤ) : Bool :=
  decide (span.1 < minSize.1 ∨ span.2 < minSize.2)

/-- Modelled from the spec's words: reject when the span is smaller than
the exact real-valued product `min_crop_ratio * image_size` on either
axis. -/
def rejectCandidateSpec (frac : ℚ) (size : ℕ × ℕ) (span : ℤ × ℤ) : Bool :=
  decide ((span.1 : ℚ) < frac * size.1 ∨ (span.2 : ℚ) < frac * size.2)

/-- `poly.min(axis=0)[0]`. -/
def polyMinX (poly : Poly) : ℚ := qListMin (poly.map Pt.x)

/-- `poly.max(axis=0)[0]`. -/
def polyMaxX (poly : Poly) : ℚ := qListMax (poly.map Pt.x)

/-- `poly.min(axis=0)[1]`. -/
def polyMinY (poly : Poly) : ℚ := qListMin (poly.map Pt.y)

/-- `poly.max(axis=0)[1]`. -/
def polyMaxY (poly : Poly) : ℚ := qListMax (poly.map Pt.y)

/-- `(poly.max(axis=0) > start[::-1]).all() and (poly.min(axis=0) < end[::-1]).all()`
(lines 247 and 330): `start`/`stop` are `(y, x)` window corners, the
polygon coordinates `(x, y)`, hence the reversal. -/
def overlapTest (poly : Poly) (start stop : ℕ × ℕ) : Bool :=
  decide ((start.2 : ℚ) < polyMaxX poly ∧ (start.1 : ℚ) < polyMaxY poly ∧
          polyMinX poly < (stop.2 : ℚ) ∧ polyMinY poly < (stop.1 : ℚ))

/-- The `max_tries` search loop of `_find_crop` (lines 320-331): sample a
sorted candidate per axis, skip undersized candidates, accept the first
candidate that overlaps some non-ignored polygon. -/
def findCropLoop (nonIg : List Poly) (hAvail wAvail : List ℕ)
    (minSize : ℤ × ℤ) (rng : ℕ → ℕ × ℕ × ℕ × ℕ) :
    ℕ → ℕ → Option ((ℕ × ℕ) × (ℕ × ℕ))
  | 0, _ => none
  | tries + 1, t =>
    let d := rng t
    let y := sampleSorted hAvail d.1 d.2.1
    let x := sampleSorted wAvail d.2.2.1 d.2.2.2
    let start := (y.1, x.1)
    let stop := (y.2, x.2)
    if rejectCandidate minSize ((y.2 : ℤ) - y.1, (x.2 : ℤ) - x.1) then
      findCropLoop nonIg hAvail wAvail minSize rng tries (t + 1)
    else if nonIg.any (fun poly => overlapTest poly start stop) then
      some (start, stop)
    else
      findCropLoop nonIg hAvail wAvail minSize rng tries (t + 1)

/-- Configuration of `RandomCropWithBBox`. -/
structure CropCfg where
  maxTries : ℕ
  minCropFrac : ℚ
  cropSize : ℕ × ℕ

/-- `RandomCropWithBBox._find_crop`: returns `(start, end, is_out_bounds)`
with `start`, `end` in `(y, x)` order.  The source interleaves occupancy
marking with the out-of-bounds early exit inside one loop over the
polygons; since the early exit discards the occupancy arrays, the
behaviour is the test-then-mark form written here. -/
def findCrop (cfg : CropCfg) (size : ℕ × ℕ) (polys : List Poly)
    (tags : List Bool) (rng : ℕ → ℕ × ℕ × ℕ × ℕ) :
    (ℕ × ℕ) × (ℕ × ℕ) × Bool :=
  let nonIg := nonIgnoredOf polys tags
  if nonIg.isEmpty then ((0, 0), size, false)
  else if nonIg.any (fun poly => outOfBoundsBox size poly) then
    ((0, 0), size, true)
  else
    let hAvail := hAvailOf size polys tags
    let wAvail := wAvailOf size polys tags
    if hAvail.isEmpty || wAvail.isEmpty then ((0, 0), size, false)
    else
      match findCropLoop nonIg hAvail wAvail
          (minSizeOf cfg.minCropFrac size) rng cfg.maxTries 0 with
      | some (start, stop) => (start, stop, false)
      | none => ((0, 0), size, false)

/-- `RandomCropWithBBox.__call__`.  Dict accesses that would raise
(`KeyError` on a missing key, `IndexError` on a short parallel list) are
modelled by `none`; so is `np.pad` with a negative pad width.  `texts`
is only read when some polygon is retained, matching the source, and is
always overwritten with the retained list. -/
def randomCrop (cfg : CropCfg) (data : Record)
    (rng : ℕ → ℕ × ℕ × ℕ × ℕ) : Option Record :=
  match data.polys, data.ignore_tags with
  | some polys, some tags =>
    let r := findCrop cfg data.image polys tags rng
    let start := r.1
    let stop := r.2.1
    let isOut := r.2.2
    let dy := stop.1 - start.1
    let dx := stop.2 - start.2
    let scale : ℚ := min ((cfg.cropSize.1 : ℚ) / dy) ((cfg.cropSize.2 : ℚ) / dx)
    let newH := (npRound (scale * dy)).toNat
    let newW := (npRound (scale * dx)).toNat
    let idxs := (List.range polys.length).filter
      (fun i => overlapTest (polys.getD i []) start stop)
    let newPolys := idxs.map (fun i =>
      (polys.getD i []).map
        (fun p => ⟨(p.x - start.2) * scale, (p.y - start.1) * scale⟩))
    let textsRes : Option (List String) :=
      if idxs.isEmpty then some []
      else match data.texts with
        | none => none
        | some ts => idxs.mapM (fun i => ts.get? i)
    let tagsRes := idxs.mapM (fun i => tags.get? i)
    match textsRes, tagsRes with
    | some newTexts, some newTags =>
      let d1 : Record := { data with
        image := (newH, newW)
        polys := some newPolys
        texts := some newTexts
        ignore_tags := some newTags }
      let d2 := if isOut then handBounds 8 d1 else d1
      if d2.image.1 ≤ cfg.cropSize.1 ∧ d2.image.2 ≤ cfg.cropSize.2 then
        some { d2 with image := cfg.cropSize }
      else none
    | _, _ => none
  | _, _ => none

/-! ### Concrete inputs used by witnesses and counterexamples -/

/-- A constant random source. -/
def rngZero : ℕ → ℕ × ℕ × ℕ × ℕ := fun _ => (0, 0, 0, 0)

/-- Configuration with `crop_size = (10, 10)` and the default
`max_tries = 10`, `min_crop_ratio = 0.1`. -/
def cfg1 : CropCfg := ⟨10, 1/10, (10, 10)⟩

/-- A polygon whose bounding box exceeds the right image edge of a
10x10 image (rounded box `x` in `[9, 13)`). -/
def polyA : Poly := [⟨9, 0⟩, ⟨12, 0⟩, ⟨12, 2⟩, ⟨9, 2⟩]

/-- A polygon well inside a 10x10 image. -/
def polyB : Poly := [⟨2, 4⟩, ⟨6, 4⟩, ⟨6, 8⟩, ⟨2, 8⟩]

/-- A record with two instances and aligned parallel fields of length 2;
`polyA` drives the crop out of bounds. -/
def rec1 : Record := { image := (10, 10), polys := some [polyA, polyB],
                       texts := some ["a", "b"],
                       ignore_tags := some [false, false] }

/-- Configuration with `crop_size = (9, 9)`. -/
def cfg2 : CropCfg := ⟨10, 1/10, (9, 9)⟩

/-- A small non-ignored polygon inside a 10x10 image. -/
def polyP1 : Poly := [⟨1, 1⟩, ⟨3, 1⟩, ⟨3, 3⟩, ⟨1, 3⟩]

/-- An ignored polygon straddling the right edge of the crop window. -/
def polyP2 : Poly := [⟨5, 5⟩, ⟨11, 5⟩, ⟨11, 7⟩, ⟨5, 7⟩]

/-- A record whose ignored polygon sticks out of every crop window. -/
def rec2 : Record := { image := (10, 10), polys := some [polyP1, polyP2],
                       texts := some ["p", "q"],
                       ignore_tags := some [false, true] }

/-- A random source making `_find_crop` accept the window
`(0,0)-(9,9)` on `rec2` at the first attempt. -/
def rng2 : ℕ → ℕ × ℕ × ℕ × ℕ := fun _ => (0, 6, 0, 6)

/-- Configuration with `crop_size = (4, 4)`. -/
def cfg3 : CropCfg := ⟨10, 1/10, (4, 4)⟩

/-- A record without the 'polys' key. -/
def rec3absent : Record := { image := (2, 2) }

/-- A record whose geometry lists are present but empty. -/
def rec3 : Record := { image := (2, 2), polys := some [], texts := some [],
                       ignore_tags := some [] }

/-- A polygon spanning the full width of a 4x4 image while its rounded
box stays inside the bounds. -/
def polyWide : Poly := [⟨0, 0⟩, ⟨3, 0⟩, ⟨3, 1⟩, ⟨0, 1⟩]

/-- The record produced by the crop stage on `rec1` (out-of-bounds path:
`polyA`'s in-crop sliver has area 2 < 8 and is dropped by the boundary
repair, `polyB` is kept; `texts` is left with both entries). -/
def rec1out : Record := { image := (10, 10), polys := some [polyB],
                          texts := some ["a", "b"],
                          ignore_tags := some [false] }

/-! ### Helper lemmas -/

theorem npRound_le_of_le {q : ℚ} {n : ℤ} (h : q ≤ (n : ℚ)) : npRound q ≤ n := by
  have hf : ⌊q⌋ ≤ n := by
    have := Int.floor_le_floor h
    simpa using this
  unfold npRound
  dsimp only
  split_ifs with h1 hb he
  · exact hf
  all_goals
    first
      | exact hf
      | · have hlt : ⌊q⌋ < n := by
            rcases lt_or_eq_of_le hf with h' | h'
            · exact h'
            · exfalso
              apply h1
              have hle : q - (⌊q⌋ : ℚ) ≤ 0 := by
                rw [h']
                linarith
              linarith
          omega

theorem polygon2numpy_exteriorRing (vs : Poly) :
    polygon2numpy (exteriorRing vs) = vs := by
  cases vs with
  | nil => rfl
  | cons a l =>
    show ((a :: l) ++ [a]).dropLast = a :: l
    exact List.dropLast_concat

theorem hpEval_segCross (hp : HalfPlane) (s e : Pt)
    (hne : hpEval hp e ≠ hpEval hp s) :
    hpEval hp (segCross hp s e) = hp.c := by
  have hd : hpEval hp e - hpEval hp s ≠ 0 := sub_ne_zero.mpr hne
  have hexp : hpEval hp (segCross hp s e) =
      hpEval hp s + (hp.c - hpEval hp s) / (hpEval hp e - hpEval hp s)
        * (hpEval hp e - hpEval hp s) := by
    unfold segCross hpEval
    ring
  rw [hexp, div_mul_cancel₀ _ hd]
  ring

theorem t_mem_unit {fs fe c : ℚ}
    (h : (fs ≤ c ∧ ¬ fe ≤ c) ∨ (fe ≤ c ∧ ¬ fs ≤ c)) :
    0 ≤ (c - fs) / (fe - fs) ∧ (c - fs) / (fe - fs) ≤ 1 := by
  rcases h with ⟨h1, h2⟩ | ⟨h1, h2⟩
  · push_neg at h2
    have hden : 0 < fe - fs := by linarith
    constructor
    · exact div_nonneg (by linarith) (le_of_lt hden)
    · rw [div_le_one hden]
      linarith
  · push_neg at h2
    have hrw : (c - fs) / (fe - fs) = (fs - c) / (fs - fe) := by
      rw [← neg_div_neg_eq]
      ring_nf
    rw [hrw]
    have hden : 0 < fs - fe := by linarith
    constructor
    · exact div_nonneg (by linarith) (le_of_lt hden)
    · rw [div_le_one hden]
      linarith

theorem hpEval_convex (g : HalfPlane) (s e : Pt) (t : ℚ)
    (h0 : 0 ≤ t) (h1 : t ≤ 1)
    (hgs : hpEval g s ≤ g.c) (hge : hpEval g e ≤ g.c) :
    hpEval g ⟨s.x + t * (e.x - s.x), s.y + t * (e.y - s.y)⟩ ≤ g.c := by
  have hexp : hpEval g ⟨s.x + t * (e.x - s.x), s.y + t * (e.y - s.y)⟩ =
      (1 - t) * hpEval g s + t * hpEval g e := by
    unfold hpEval
    ring
  rw [hexp]
  have ha : (1 - t) * hpEval g s ≤ (1 - t) * g.c :=
    mul_le_mul_of_nonneg_left hgs (by linarith)
  have hb : t * hpEval g e ≤ t * g.c :=
    mul_le_mul_of_nonneg_left hge h0
  linarith

theorem mem_polyEdges {vs : Poly} {se : Pt × Pt} (h : se ∈ polyEdges vs) :
    se.1 ∈ vs ∧ se.2 ∈ vs := by
  unfold polyEdges at h
  have h2 := List.of_mem_zip h
  exact ⟨h2.1, (List.mem_rotate).mp h2.2⟩

theorem clipHalfPlane_sat (hp : HalfPlane) (vs : Poly) :
    ∀ p ∈ clipHalfPlane hp vs, hpEval hp p ≤ hp.c := by
  intro p hmem
  unfold clipHalfPlane at hmem
  obtain ⟨se, _, hin⟩ := List.mem_flatMap.mp hmem
  split_ifs at hin with he hs hs
  · simp only [List.mem_cons, List.not_mem_nil, or_false] at hin
    rw [hin]; exact he
  · simp only [List.mem_cons, List.not_mem_nil, or_false] at hin
    rcases hin with h' | h'
    · rw [h', hpEval_segCross hp se.1 se.2 (fun heq => hs (heq ▸ he))]
    · rw [h']; exact he
  · simp only [List.mem_cons, List.not_mem_nil, or_false] at hin
    rw [hin, hpEval_segCross hp se.1 se.2 (fun heq => he (heq ▸ hs))]
  · simp at hin

theorem clipHalfPlane_pres (g hp : HalfPlane) (vs : Poly)
    (hall : ∀ p ∈ vs, hpEval g p ≤ g.c) :
    ∀ p ∈ clipHalfPlane hp vs, hpEval g p ≤ g.c := by
  intro p hmem
  unfold clipHalfPlane at hmem
  obtain ⟨se, hse, hin⟩ := List.mem_flatMap.mp hmem
  obtain ⟨hs1, hs2⟩ := mem_polyEdges hse
  have hgs := hall se.1 hs1
  have hge := hall se.2 hs2
  split_ifs at hin with he hs hs
  · simp only [List.mem_cons, List.not_mem_nil, or_false] at hin
    rw [hin]; exact hge
  · simp only [List.mem_cons, List.not_mem_nil, or_false] at hin
    rcases hin with h' | h'
    · rw [h']
      obtain ⟨h0, h1⟩ := t_mem_unit (Or.inr ⟨he, hs⟩)
      exact hpEval_convex g se.1 se.2 _ h0 h1 hgs hge
    · rw [h']; exact hge
  · simp only [List.mem_cons, List.not_mem_nil, or_false] at hin
    rw [hin]
    obtain ⟨h0, h1⟩ := t_mem_unit (Or.inl ⟨hs, he⟩)
    exact hpEval_convex g se.1 se.2 _ h0 h1 hgs hge
  · simp at hin

theorem rectClip_mem_bounds (w h : ℚ) (vs : Poly) :
    ∀ p ∈ rectClip w h vs, 0 ≤ p.x ∧ p.x ≤ w ∧ 0 ≤ p.y ∧ p.y ≤ h := by
  intro p hmem
  unfold rectClip rectHalfPlanes at hmem
  simp only [List.foldl_cons, List.foldl_nil] at hmem
  have c1 : ∀ q ∈ clipHalfPlane ⟨-1, 0, 0⟩ vs, hpEval ⟨-1, 0, 0⟩ q ≤ (0 : ℚ) :=
    clipHalfPlane_sat _ vs
  have c2a : ∀ q ∈ clipHalfPlane ⟨1, 0, w⟩ (clipHalfPlane ⟨-1, 0, 0⟩ vs),
      hpEval ⟨1, 0, w⟩ q ≤ w := clipHalfPlane_sat _ _
  have c2b : ∀ q ∈ clipHalfPlane ⟨1, 0, w⟩ (clipHalfPlane ⟨-1, 0, 0⟩ vs),
      hpEval ⟨-1, 0, 0⟩ q ≤ (0 : ℚ) := clipHalfPlane_pres _ _ _ c1
  have c3a : ∀ q ∈ clipHalfPlane ⟨0, -1, 0⟩ (clipHalfPlane ⟨1, 0, w⟩
      (clipHalfPlane ⟨-1, 0, 0⟩ vs)), hpEval ⟨0, -1, 0⟩ q ≤ (0 : ℚ) :=
    clipHalfPlane_sat _ _
  have c3b : ∀ q ∈ clipHalfPlane ⟨0, -1, 0⟩ (clipHalfPlane ⟨1, 0, w⟩
      (clipHalfPlane ⟨-1, 0, 0⟩ vs)), hpEval ⟨1, 0, w⟩ q ≤ w :=
    clipHalfPlane_pres _ _ _ c2a
  have c3c : ∀ q ∈ clipHalfPlane ⟨0, -1, 0⟩ (clipHalfPlane ⟨1, 0, w⟩
      (clipHalfPlane ⟨-1, 0, 0⟩ vs)), hpEval ⟨-1, 0, 0⟩ q ≤ (0 : ℚ) :=
    clipHalfPlane_pres _ _ _ c2b
  have c4a := clipHalfPlane_sat ⟨0, 1, h⟩ (clipHalfPlane ⟨0, -1, 0⟩
      (clipHalfPlane ⟨1, 0, w⟩ (clipHalfPlane ⟨-1, 0, 0⟩ vs))) p hmem
  have c4b := clipHalfPlane_pres ⟨0, -1, 0⟩ ⟨0, 1, h⟩ _ c3a p hmem
  have c4c := clipHalfPlane_pres ⟨1, 0, w⟩ ⟨0, 1, h⟩ _ c3b p hmem
  have c4d := clipHalfPlane_pres ⟨-1, 0, 0⟩ ⟨0, 1, h⟩ _ c3c p hmem
  unfold hpEval at c4a c4b c4c c4d
  simp only at c4a c4b c4c c4d
  refine ⟨by linarith, by linarith, by linarith, by linarith⟩

theorem polyArea_nil : polyArea [] = 0 := by
  simp [polyArea, shoelace, polyEdges]

theorem filterMap_ext {α β : Type} {f g : α → Option β} {l : List α}
    (h : ∀ a ∈ l, f a = g a) : l.filterMap f = l.filterMap g := by
  induction l with
  | nil => rfl
  | cons a as ih =>
    rw [List.filterMap_cons, List.filterMap_cons,
      h a (List.mem_cons_self a as), ih (fun b hb => h b (List.mem_cons_of_mem a hb))]

theorem min_div_mul_le_left (a b : ℚ) (d1 d2 : ℕ) (hd : 1 ≤ d1) :
    min (a / d1) (b / d2) * d1 ≤ a := by
  have hd0 : (d1 : ℚ) ≠ 0 := Nat.cast_ne_zero.mpr (by omega)
  calc min (a / d1) (b / d2) * d1 ≤ a / d1 * d1 :=
        mul_le_mul_of_nonneg_right (min_le_left _ _) (by positivity)
    _ = a := div_mul_cancel₀ a hd0

theorem min_div_mul_le_right (a b : ℚ) (d1 d2 : ℕ) (hd : 1 ≤ d2) :
    min (a / d1) (b / d2) * d2 ≤ b := by
  have hd0 : (d2 : ℚ) ≠ 0 := Nat.cast_ne_zero.mpr (by omega)
  calc min (a / d1) (b / d2) * d2 ≤ b / d2 * d2 :=
        mul_le_mul_of_nonneg_right (min_le_right _ _) (by positivity)
    _ = b := div_mul_cancel₀ b hd0

theorem sampleSorted_spec (avail : List ℕ) (r1 r2 : ℕ) (hne : avail ≠ []) :
    (sampleSorted avail r1 r2).1 ∈ avail ∧ (sampleSorted avail r1 r2).2 ∈ avail ∧
      (sampleSorted avail r1 r2).1 ≤ (sampleSorted avail r1 r2).2 := by
  have hpos : 0 < avail.length := List.length_pos.mpr hne
  have hmem : ∀ r : ℕ, avail.getD (r % avail.length) 0 ∈ avail := by
    intro r
    have hlt : r % avail.length < avail.length := Nat.mod_lt _ hpos
    rw [List.getD_eq_getElem?_getD, List.getElem?_eq_getElem hlt]
    exact List.getElem_mem hlt
  simp only [sampleSorted]
  refine ⟨?_, ?_, min_le_max⟩
  · rcases min_choice (avail.getD (r1 % avail.length) 0)
        (avail.getD (r2 % avail.length) 0) with h | h <;> rw [h]
    · exact hmem r1
    · exact hmem r2
  · rcases max_choice (avail.getD (r1 % avail.length) 0)
        (avail.getD (r2 % avail.length) 0) with h | h <;> rw [h]
    · exact hmem r1
    · exact hmem r2

theorem findCropLoop_some_spec (nonIg : List Poly) (hAvail wAvail : List ℕ)
    (minSize : ℤ × ℤ) (rng : ℕ → ℕ × ℕ × ℕ × ℕ)
    (hh : hAvail ≠ []) (hw : wAvail ≠ []) :
    ∀ (tries t : ℕ) (s e : ℕ × ℕ),
      findCropLoop nonIg hAvail wAvail minSize rng tries t = some (s, e) →
      s.1 ∈ hAvail ∧ e.1 ∈ hAvail ∧ s.2 ∈ wAvail ∧ e.2 ∈ wAvail ∧
        s.1 ≤ e.1 ∧ s.2 ≤ e.2 ∧
        minSize.1 ≤ (e.1 : ℤ) - s.1 ∧ minSize.2 ≤ (e.2 : ℤ) - s.2 := by
  intro tries
  induction tries with
  | zero =>
    intro t s e h
    simp [findCropLoop] at h
  | succ n ih =>
    intro t s e h
    obtain ⟨s1, s2⟩ := s
    obtain ⟨e1, e2⟩ := e
    simp only [findCropLoop] at h
    split_ifs at h with hrej hov
    · exact ih (t + 1) (s1, s2) (e1, e2) h
    · simp only [Option.some_inj, Prod.mk.injEq] at h
      obtain ⟨⟨hy1e, hx1e⟩, hy2e, hx2e⟩ := h
      obtain ⟨my1, my2, mys⟩ := sampleSorted_spec hAvail ((rng t).1) ((rng t).2.1) hh
      obtain ⟨mx1, mx2, mxs⟩ := sampleSorted_spec wAvail ((rng t).2.2.1) ((rng t).2.2.2) hw
      subst hy1e hx1e hy2e hx2e
      simp only [rejectCandidate, decide_eq_true_eq] at hrej
      push_neg at hrej
      exact ⟨my1, my2, mx1, mx2, mys, mxs, hrej.1, hrej.2⟩
    · exact ih (t + 1) (s1, s2) (e1, e2) h

theorem handBounds_image (thresh : ℚ) (d : Record) :
    (handBounds thresh d).image = d.image := rfl

theorem handBounds_poly_bounds (thresh : ℚ) (d : Record) :
    ∀ poly ∈ (handBounds thresh d).polys.getD [], ∀ p ∈ poly,
      0 ≤ p.x ∧ p.x ≤ (d.image.2 : ℚ) ∧ 0 ≤ p.y ∧ p.y ≤ (d.image.1 : ℚ) := by
  intro poly hpoly p hp
  simp only [handBounds, Option.getD_some] at hpoly
  obtain ⟨pr, hpr, hfst⟩ := List.mem_map.mp hpoly
  obtain ⟨pt, _, heq⟩ := List.mem_filterMap.mp hpr
  split_ifs at heq with hc
  rw [Option.some_inj] at heq
  have hpr1 : pr.1 = rectClip (d.image.2 : ℚ) (d.image.1 : ℚ) pt.1 := by
    rw [← heq]
    exact polygon2numpy_exteriorRing _
  rw [hpr1] at hfst
  rw [← hfst] at hp
  obtain ⟨h1, h2, h3, h4⟩ := rectClip_mem_bounds _ _ _ p hp
  exact ⟨h1, h2, h3, h4⟩

theorem mapM_get?_eq_some {α : Type} (l : List α) :
    ∀ idxs : List ℕ, (∀ i ∈ idxs, i < l.length) →
      ∃ out, idxs.mapM (fun i => l.get? i) = some out := by
  intro idxs
  induction idxs with
  | nil => exact fun _ => ⟨[], rfl⟩
  | cons a as ih =>
    intro hall
    have ha : a < l.length := hall a (List.mem_cons_self a as)
    obtain ⟨xs, hxs⟩ := ih (fun i hi => hall i (List.mem_cons_of_mem a hi))
    refine ⟨l.get ⟨a, ha⟩ :: xs, ?_⟩
    rw [List.mapM_cons, List.get?_eq_get ha, hxs]
    rfl

theorem mem_hAvailOf {size : ℕ × ℕ} {polys : List Poly} {tags : List Bool}
    {i : ℕ} (h : i ∈ hAvailOf size polys tags) : i < size.1 := by
  unfold hAvailOf at h
  exact List.mem_range.mp (List.mem_filter.mp h).1

theorem mem_wAvailOf {size : ℕ × ℕ} {polys : List Poly} {tags : List Bool}
    {j : ℕ} (h : j ∈ wAvailOf size polys tags) : j < size.2 := by
  unfold wAvailOf at h
  exact List.mem_range.mp (List.mem_filter.mp h).1

theorem handBounds_keep_fst (w h : ℚ) (pt : Poly × Bool) :
    (if (rectClip w h pt.1).isEmpty = false ∧ 8 ≤ polyArea (rectClip w h pt.1)
      then some (polygon2numpy (exteriorRing (rectClip w h pt.1)), pt.2)
      else none).map Prod.fst =
    if 8 ≤ polyArea (rectClip w h pt.1) then some (rectClip w h pt.1)
      else none := by
  by_cases hE : (rectClip w h pt.1).isEmpty
  · have hnil : rectClip w h pt.1 = [] := List.isEmpty_iff.mp hE
    have hlt : ¬ (8 : ℚ) ≤ polyArea (rectClip w h pt.1) := by
      rw [hnil, polyArea_nil]
      norm_num
    simp [hE, hlt]
  · simp only [Bool.not_eq_true] at hE
    simp only [hE, true_and]
    split_ifs with ha
    · simp [polygon2numpy_exteriorRing]
    · rfl

theorem handBounds_keep_snd (w h : ℚ) (pt : Poly × Bool) :
    (if (rectClip w h pt.1).isEmpty = false ∧ 8 ≤ polyArea (rectClip w h pt.1)
      then some (polygon2numpy (exteriorRing (rectClip w h pt.1)), pt.2)
      else none).map Prod.snd =
    if 8 ≤ polyArea (rectClip w h pt.1) then some pt.2 else none := by
  by_cases hE : (rectClip w h pt.1).isEmpty
  · have hnil : rectClip w h pt.1 = [] := List.isEmpty_iff.mp hE
    have hlt : ¬ (8 : ℚ) ≤ polyArea (rectClip w h pt.1) := by
      rw [hnil, polyArea_nil]
      norm_num
    simp [hE, hlt]
  · simp only [Bool.not_eq_true] at hE
    simp only [hE, true_and]
    split_ifs with ha
    · rfl
    · rfl

/-! ### Claim theorems -/

unseal Rat.add Rat.mul Rat.sub Rat.inv in
/-- C1: FAILS on the code (code bug).  On `rec1` the three parallel
fields `polys`, `texts`, `ignore_tags` are aligned with length 2 before
the stage.  `RandomCropWithBBox.__call__` takes the out-of-bounds path
and runs `hand_bounds`, which drops the sub-threshold instance from
`polys` and `ignore_tags` but never touches `texts`: afterwards `polys`
and `ignore_tags` have length 1 while `texts` still has length 2, so
index alignment is broken, contradicting the invariant the claim states
for every geometry stage. -/
theorem claim1_hand_bounds_breaks_alignment :
    (randomCrop cfg1 rec1 rngZero).map
      (fun r => ((r.polys.getD []).length, (r.texts.getD []).length,
                 (r.ignore_tags.getD []).length)) = some (1, 2, 1) := by
  decide

unseal Rat.add Rat.mul Rat.sub Rat.inv in
/-- C2 counterexample: on `rec2` the search accepts the in-bounds window
`(0,0)-(9,9)` (so no boundary repair runs), and the ignored polygon
`polyP2` straddling the window edge is retained unclipped: the output
contains a vertex with `x = 11 > crop_size_w = 9`, refuting the claim
that every retained vertex lies within `[0, crop_size_w] × [0,
crop_size_h]`. -/
theorem claim2_counterexample :
    (randomCrop cfg2 rec2 rng2).map
      (fun r => decide (∀ poly ∈ r.polys.getD [], ∀ p ∈ poly,
        0 ≤ p.x ∧ p.x ≤ 9 ∧ 0 ≤ p.y ∧ p.y ≤ 9)) = some false := by
  decide

unseal Rat.add Rat.mul Rat.sub Rat.inv in
/-- C3 counterexample: when the 'polys' key is absent the stage does not
return the scaled-and-padded full image — it fails (a `KeyError` from
the unconditional `data['polys']` access, modelled as `none`). -/
theorem claim3_counterexample :
    randomCrop cfg3 rec3absent rngZero = none := by
  decide

/-- C6 counterexample: `np.random.choice(avail, size=2)` samples WITH
replacement (numpy's default), so the two drawn indices can coincide:
on the available set `[0, 3]` the draws `(0, 0)` yield the sorted pair
`(0, 0)`, refuting "sampled without replacement ... always distinct". -/
theorem claim6_counterexample :
    sampleSorted [0, 3] 0 0 = (0, 0) := by
  decide

/-- C6 amended: each attempt draws the two indices of an axis
independently (with replacement) from the available set and sorts them:
both components of the sampled pair are elements of the available set
and the pair is nondecreasing, but the components need not be
distinct. -/
theorem claim6_amended_sampling (avail : List ℕ) (r1 r2 : ℕ)
    (hne : avail ≠ []) :
    (sampleSorted avail r1 r2).1 ∈ avail ∧
      (sampleSorted avail r1 r2).2 ∈ avail ∧
      (sampleSorted avail r1 r2).1 ≤ (sampleSorted avail r1 r2).2 :=
  sampleSorted_spec avail r1 r2 hne

theorem claim6_amended_sampling_witness :
    (sampleSorted [0, 3] 0 1).1 ∈ [0, 3] ∧
      (sampleSorted [0, 3] 0 1).2 ∈ [0, 3] ∧
      (sampleSorted [0, 3] 0 1).1 ≤ (sampleSorted [0, 3] 0 1).2 :=
  claim6_amended_sampling [0, 3] 0 1 (by decide)

/-- C9: the integer-span rejection of `_find_crop` — comparing the span
against `ceil(min_crop_ratio * image_size)` — rejects exactly the same
candidates as the spec's comparison against the exact real-valued
product `min_crop_ratio * image_size`. -/
theorem claim9_ceil_threshold_equiv (frac : ℚ) (size : ℕ × ℕ)
    (span : ℤ × ℤ) :
    rejectCandidate (minSizeOf frac size) span =
      rejectCandidateSpec frac size span := by
  unfold rejectCandidate rejectCandidateSpec minSizeOf
  exact decide_eq_decide.mpr (or_congr Int.lt_ceil Int.lt_ceil)

/-- C4: the flag/early-exit behaviour of `_find_crop`: the result is the
full image `((0,0), size)` with `out_of_bounds = true` exactly when some
non-ignored polygon's bounding box — rounded, clamped at 0 but not at
the upper bound — exceeds the image bounds. -/
theorem claim4_out_of_bounds_exit (cfg : CropCfg) (size : ℕ × ℕ)
    (polys : List Poly) (tags : List Bool) (rng : ℕ → ℕ × ℕ × ℕ × ℕ) :
    findCrop cfg size polys tags rng = ((0, 0), size, true) ↔
      ∃ poly ∈ nonIgnoredOf polys tags, outOfBoundsBox size poly = true := by
  constructor
  · intro h
    simp only [findCrop] at h
    by_cases h1 : (nonIgnoredOf polys tags).isEmpty = true
    · rw [if_pos h1] at h
      simp [Prod.ext_iff] at h
    · rw [if_neg h1] at h
      by_cases h2 : (nonIgnoredOf polys tags).any
          (fun poly => outOfBoundsBox size poly) = true
      · exact List.any_eq_true.mp h2
      · rw [if_neg h2] at h
        exfalso
        by_cases h3 : ((hAvailOf size polys tags).isEmpty ||
            (wAvailOf size polys tags).isEmpty) = true
        · rw [if_pos h3] at h
          simp [Prod.ext_iff] at h
        · rw [if_neg h3] at h
          rcases hl : findCropLoop (nonIgnoredOf polys tags)
              (hAvailOf size polys tags) (wAvailOf size polys tags)
              (minSizeOf cfg.minCropFrac size) rng cfg.maxTries 0 with _ | ⟨s, e⟩
          · rw [hl] at h
            simp [Prod.ext_iff] at h
          · rw [hl] at h
            simp [Prod.ext_iff] at h
  · intro hex
    have h2 : (nonIgnoredOf polys tags).any
        (fun poly => outOfBoundsBox size poly) = true :=
      List.any_eq_true.mpr hex
    have h1 : ¬ (nonIgnoredOf polys tags).isEmpty = true := by
      obtain ⟨p, hm, _⟩ := hex
      intro hE
      rw [List.isEmpty_iff.mp hE] at hm
      exact List.not_mem_nil p hm
    simp only [findCrop]
    rw [if_neg h1, if_pos h2]

unseal Rat.add Rat.mul Rat.sub Rat.inv in
theorem claim4_out_of_bounds_exit_witness :
    findCrop cfg1 (10, 10) [polyA, polyB] [false, false] rngZero =
      ((0, 0), (10, 10), true) :=
  (claim4_out_of_bounds_exit cfg1 (10, 10) [polyA, polyB] [false, false]
    rngZero).mpr ⟨polyA, by decide, by decide⟩

/-- C5: `hand_bounds` keeps an instance exactly when the area of its
intersection with the crop rectangle `[0, w] × [0, h]` is at least the
fixed threshold 8, replacing the kept polygon by the intersection's
boundary vertices with the closing duplicate vertex dropped; instances
below the threshold (including degenerate or empty intersections of
area 0) are silently dropped — the stage is total and never fails the
record. -/
theorem claim5_area_threshold_policy (h w : ℕ) (ps : List Poly)
    (tags : List Bool) (t : Option (List String)) (sh : Option (List ℚ)) :
    handBounds 8 { image := (h, w), polys := some ps, texts := t,
                   ignore_tags := some tags, shape := sh } =
      { image := (h, w),
        polys := some ((ps.zip tags).filterMap (fun pt =>
          if 8 ≤ polyArea (rectClip (w : ℚ) (h : ℚ) pt.1)
          then some (rectClip (w : ℚ) (h : ℚ) pt.1) else none)),
        texts := t,
        ignore_tags := some ((ps.zip tags).filterMap (fun pt =>
          if 8 ≤ polyArea (rectClip (w : ℚ) (h : ℚ) pt.1)
          then some pt.2 else none)),
        shape := sh } := by
  simp only [handBounds, Option.getD_some]
  rw [List.map_filterMap, List.map_filterMap]
  rw [filterMap_ext (fun pt _ => handBounds_keep_fst (w : ℚ) (h : ℚ) pt),
      filterMap_ext (fun pt _ => handBounds_keep_snd (w : ℚ) (h : ℚ) pt)]

/-- C7: if every position of one occupancy axis is marked by some
non-ignored polygon's box, `_find_crop` performs no sampling — the
result is independent of the random source — and the returned window is
the full image. -/
theorem claim7_full_occupancy_full_image (cfg : CropCfg) (size : ℕ × ℕ)
    (polys : List Poly) (tags : List Bool)
    (hocc : (∀ i ∈ List.range size.1,
               occupiedH (nonIgnoredOf polys tags) i = true) ∨
            (∀ j ∈ List.range size.2,
               occupiedW (nonIgnoredOf polys tags) j = true))
    (rng rng' : ℕ → ℕ × ℕ × ℕ × ℕ) :
    findCrop cfg size polys tags rng = findCrop cfg size polys tags rng' ∧
      (findCrop cfg size polys tags rng).1 = (0, 0) ∧
      (findCrop cfg size polys tags rng).2.1 = size := by
  have hcond : ((hAvailOf size polys tags).isEmpty ||
      (wAvailOf size polys tags).isEmpty) = true := by
    rcases hocc with hA | hB
    · have hnil : hAvailOf size polys tags = [] := by
        unfold hAvailOf
        apply List.filter_eq_nil_iff.mpr
        intro i hi
        simp [hA i hi]
      simp [hnil]
    · have hnil : wAvailOf size polys tags = [] := by
        unfold wAvailOf
        apply List.filter_eq_nil_iff.mpr
        intro j hj
        simp [hB j hj]
      simp [hnil]
  simp only [findCrop]
  by_cases h1 : (nonIgnoredOf polys tags).isEmpty = true
  · simp only [if_pos h1]
    exact ⟨trivial, trivial, trivial⟩
  · simp only [if_neg h1]
    by_cases h2 : (nonIgnoredOf polys tags).any
        (fun poly => outOfBoundsBox size poly) = true
    · simp only [if_pos h2]
      exact ⟨trivial, trivial, trivial⟩
    · simp only [if_neg h2, if_pos hcond]
      exact ⟨trivial, trivial, trivial⟩

unseal Rat.add Rat.mul Rat.sub Rat.inv in
theorem claim7_full_occupancy_witness :
    findCrop cfg3 (4, 4) [polyWide] [false] rngZero =
        findCrop cfg3 (4, 4) [polyWide] [false] rng2 ∧
      (findCrop cfg3 (4, 4) [polyWide] [false] rngZero).1 = (0, 0) ∧
      (findCrop cfg3 (4, 4) [polyWide] [false] rngZero).2.1 = (4, 4) :=
  claim7_full_occupancy_full_image cfg3 (4, 4) [polyWide] [false]
    (Or.inr (by decide)) rngZero rng2

/-- C8: `ScalePadImage` on an `h x w` image computes
`scale = min(target_h/h, target_w/w)`, resizes to
`round(scale*h) x round(scale*w)` (whose dimensions never exceed the
target, so the bottom/right zero-pad brings the image to exactly
`target`), multiplies every `polys` coordinate by the same scalar, and
records `shape = [h, w, scale, scale]`. -/
theorem claim8_scale_pad_round_trip (h w : ℕ) (target : ℕ × ℕ)
    (ps : List Poly) (t : Option (List String)) (itg : Option (List Bool))
    (sh : Option (List ℚ)) (hh : 1 ≤ h) (hw : 1 ≤ w) :
    scalePadImage target { image := (h, w), polys := some ps, texts := t,
                           ignore_tags := itg, shape := sh } =
      some { image := target,
             polys := some (ps.map (fun poly => poly.map (fun p =>
               ⟨p.x * scalePadScale target (h, w),
                p.y * scalePadScale target (h, w)⟩))),
             texts := t, ignore_tags := itg,
             shape := some [(h : ℚ), (w : ℚ), scalePadScale target (h, w),
                            scalePadScale target (h, w)] } ∧
      npRound (scalePadScale target (h, w) * (h : ℚ)) ≤ (target.1 : ℤ) ∧
      npRound (scalePadScale target (h, w) * (w : ℚ)) ≤ (target.2 : ℤ) := by
  have hb1 : scalePadScale target (h, w) * (h : ℚ) ≤ (target.1 : ℚ) := by
    simpa [scalePadScale] using
      min_div_mul_le_left (target.1 : ℚ) (target.2 : ℚ) h w hh
  have hb2 : scalePadScale target (h, w) * (w : ℚ) ≤ (target.2 : ℚ) := by
    simpa [scalePadScale] using
      min_div_mul_le_right (target.1 : ℚ) (target.2 : ℚ) h w hw
  have hn1 : npRound (scalePadScale target (h, w) * (h : ℚ)) ≤ (target.1 : ℤ) :=
    npRound_le_of_le (by exact_mod_cast hb1)
  have hn2 : npRound (scalePadScale target (h, w) * (w : ℚ)) ≤ (target.2 : ℤ) :=
    npRound_le_of_le (by exact_mod_cast hb2)
  refine ⟨?_, hn1, hn2⟩
  unfold scalePadImage
  dsimp only
  rw [if_pos ⟨hn1, hn2⟩]
  rfl

theorem claim8_scale_pad_witness :
    (1 ≤ 480 ∧ 1 ≤ 320) ∧
      (scalePadImage (640, 640) { image := (480, 320), polys := some [],
                                  texts := none, ignore_tags := none,
                                  shape := none } =
        some { image := (640, 640), polys := some [], texts := none,
               ignore_tags := none,
               shape := some [((480 : ℕ) : ℚ), ((320 : ℕ) : ℚ),
                              scalePadScale (640, 640) (480, 320),
                              scalePadScale (640, 640) (480, 320)] } ∧
       npRound (scalePadScale (640, 640) (480, 320) * ((480 : ℕ) : ℚ)) ≤
         ((640, 640).1 : ℤ) ∧
       npRound (scalePadScale (640, 640) (480, 320) * ((320 : ℕ) : ℚ)) ≤
         ((640, 640).2 : ℤ)) :=
  ⟨⟨by decide, by decide⟩,
    claim8_scale_pad_round_trip 480 320 (640, 640) [] none none none
      (by decide) (by decide)⟩

/-- C10: whenever at least one non-ignored polygon exists and none is
out of bounds, `_find_crop` returns a window with
`0 ≤ start ≤ end ≤ image_size` componentwise, and the window is either
the full image or has all four endpoints at occupancy-free positions
with per-axis span at least `ceil(min_crop_ratio * axis_size)`. -/
theorem claim10_window_invariant (cfg : CropCfg) (size : ℕ × ℕ)
    (polys : List Poly) (tags : List Bool) (rng : ℕ → ℕ × ℕ × ℕ × ℕ)
    (s e : ℕ × ℕ) (flag : Bool)
    (hne : nonIgnoredOf polys tags ≠ [])
    (hin : ∀ poly ∈ nonIgnoredOf polys tags, outOfBoundsBox size poly = false)
    (hfc : findCrop cfg size polys tags rng = (s, e, flag)) :
    (s.1 ≤ e.1 ∧ e.1 ≤ size.1 ∧ s.2 ≤ e.2 ∧ e.2 ≤ size.2) ∧
      ((s = (0, 0) ∧ e = size) ∨
        (s.1 ∈ hAvailOf size polys tags ∧ e.1 ∈ hAvailOf size polys tags ∧
          s.2 ∈ wAvailOf size polys tags ∧ e.2 ∈ wAvailOf size polys tags ∧
          (minSizeOf cfg.minCropFrac size).1 ≤ (e.1 : ℤ) - (s.1 : ℤ) ∧
          (minSizeOf cfg.minCropFrac size).2 ≤ (e.2 : ℤ) - (s.2 : ℤ))) := by
  have h1 : ¬ (nonIgnoredOf polys tags).isEmpty = true := by
    intro hE
    exact hne (List.isEmpty_iff.mp hE)
  have h2 : ¬ (nonIgnoredOf polys tags).any
      (fun poly => outOfBoundsBox size poly) = true := by
    intro hA
    obtain ⟨p, hm, hb⟩ := List.any_eq_true.mp hA
    rw [hin p hm] at hb
    exact Bool.false_ne_true hb
  simp only [findCrop] at hfc
  rw [if_neg h1, if_neg h2] at hfc
  by_cases h3 : ((hAvailOf size polys tags).isEmpty ||
      (wAvailOf size polys tags).isEmpty) = true
  · rw [if_pos h3] at hfc
    simp only [Prod.mk.injEq] at hfc
    obtain ⟨hs, he, -⟩ := hfc
    subst hs
    subst he
    exact ⟨⟨Nat.zero_le _, le_refl _, Nat.zero_le _, le_refl _⟩,
      Or.inl ⟨rfl, rfl⟩⟩
  · rw [if_neg h3] at hfc
    have hhne : hAvailOf size polys tags ≠ [] := by
      intro hnil
      apply h3
      simp [hnil]
    have hwne : wAvailOf size polys tags ≠ [] := by
      intro hnil
      apply h3
      simp [hnil]
    rcases hl : findCropLoop (nonIgnoredOf polys tags)
        (hAvailOf size polys tags) (wAvailOf size polys tags)
        (minSizeOf cfg.minCropFrac size) rng cfg.maxTries 0 with _ | ⟨s', e'⟩
    · rw [hl] at hfc
      simp only [Prod.mk.injEq] at hfc
      obtain ⟨hs, he, -⟩ := hfc
      subst hs
      subst he
      exact ⟨⟨Nat.zero_le _, le_refl _, Nat.zero_le _, le_refl _⟩,
        Or.inl ⟨rfl, rfl⟩⟩
    · rw [hl] at hfc
      simp only [Prod.mk.injEq] at hfc
      obtain ⟨hs, he, -⟩ := hfc
      subst hs
      subst he
      obtain ⟨m1, m2, m3, m4, m5, m6, m7, m8⟩ :=
        findCropLoop_some_spec (nonIgnoredOf polys tags)
          (hAvailOf size polys tags) (wAvailOf size polys tags)
          (minSizeOf cfg.minCropFrac size) rng hhne hwne
          cfg.maxTries 0 s' e' hl
      exact ⟨⟨m5, le_of_lt (mem_hAvailOf m2), m6, le_of_lt (mem_wAvailOf m4)⟩,
        Or.inr ⟨m1, m2, m3, m4, m7, m8⟩⟩

unseal Rat.add Rat.mul Rat.sub Rat.inv in
theorem claim10_window_invariant_witness :
    ((((0, 0) : ℕ × ℕ).1 ≤ ((9, 9) : ℕ × ℕ).1 ∧
       ((9, 9) : ℕ × ℕ).1 ≤ ((10, 10) : ℕ × ℕ).1 ∧
       ((0, 0) : ℕ × ℕ).2 ≤ ((9, 9) : ℕ × ℕ).2 ∧
       ((9, 9) : ℕ × ℕ).2 ≤ ((10, 10) : ℕ × ℕ).2) ∧
      ((((0, 0) : ℕ × ℕ) = (0, 0) ∧ ((9, 9) : ℕ × ℕ) = (10, 10)) ∨
        (((0, 0) : ℕ × ℕ).1 ∈ hAvailOf (10, 10) [polyP1] [false] ∧
          ((9, 9) : ℕ × ℕ).1 ∈ hAvailOf (10, 10) [polyP1] [false] ∧
          ((0, 0) : ℕ × ℕ).2 ∈ wAvailOf (10, 10) [polyP1] [false] ∧
          ((9, 9) : ℕ × ℕ).2 ∈ wAvailOf (10, 10) [polyP1] [false] ∧
          (minSizeOf cfg2.minCropFrac (10, 10)).1 ≤
            ((((9, 9) : ℕ × ℕ).1 : ℤ) - ((((0, 0) : ℕ × ℕ).1 : ℕ) : ℤ)) ∧
          (minSizeOf cfg2.minCropFrac (10, 10)).2 ≤
            ((((9, 9) : ℕ × ℕ).2 : ℤ) - ((((0, 0) : ℕ × ℕ).2 : ℕ) : ℤ))))) :=
  claim10_window_invariant cfg2 (10, 10) [polyP1] [false] rng2 (0, 0) (9, 9)
    false (by decide) (by decide) (by decide)

/-- C2 amended: containment holds exactly on the boundary-repair path:
when `_find_crop` signals out-of-bounds, every vertex of every polygon
output by `RandomCropWithBBox.__call__` lies within
`[0, crop_size_w] × [0, crop_size_h]`; without the repair, retained
polygons may extend outside the crop (see the counterexample). -/
theorem claim2_amended_repair_containment (cfg : CropCfg) (data : Record)
    (rng : ℕ → ℕ × ℕ × ℕ × ℕ) (polys : List Poly) (tags : List Bool)
    (r : Record)
    (hp : data.polys = some polys) (ht : data.ignore_tags = some tags)
    (hout : (findCrop cfg data.image polys tags rng).2.2 = true)
    (hr : randomCrop cfg data rng = some r) :
    ∀ poly ∈ r.polys.getD [], ∀ p ∈ poly,
      0 ≤ p.x ∧ p.x ≤ (cfg.cropSize.2 : ℚ) ∧
      0 ≤ p.y ∧ p.y ≤ (cfg.cropSize.1 : ℚ) := by
  simp only [randomCrop, hp, ht] at hr
  rw [hout] at hr
  simp only [if_true] at hr
  split at hr
  · split at hr
    · rename_i hcond
      rw [Option.some_inj] at hr
      subst hr
      intro poly hpoly p hptm
      obtain ⟨b1, b2, b3, b4⟩ := handBounds_poly_bounds 8 _ poly hpoly p hptm
      refine ⟨b1, le_trans b2 ?_, b3, le_trans b4 ?_⟩
      · exact_mod_cast hcond.2
      · exact_mod_cast hcond.1
    · exact absurd hr (by simp)
  · exact absurd hr (by simp)

unseal Rat.add Rat.mul Rat.sub Rat.inv in
theorem claim2_amended_repair_containment_witness :
    0 ≤ (⟨2, 4⟩ : Pt).x ∧ (⟨2, 4⟩ : Pt).x ≤ (cfg1.cropSize.2 : ℚ) ∧
      0 ≤ (⟨2, 4⟩ : Pt).y ∧ (⟨2, 4⟩ : Pt).y ≤ (cfg1.cropSize.1 : ℚ) :=
  claim2_amended_repair_containment cfg1 rec1 rngZero [polyA, polyB]
    [false, false] rec1out rfl rfl (by decide) (by decide)
    polyB (by decide) ⟨2, 4⟩ (by decide)

/-- C3 amended: when 'polys' IS PRESENT and empty, or every polygon is
marked ignored (with 'texts' and 'ignore_tags' present and aligned),
the crop stage is deterministic — the window search consumes no
randomness and returns the full image — and the output image is the
full image scaled by `min(crop_size / image_size)` and zero-padded to
exactly `crop_size`.  When 'polys' is absent the stage instead fails
with a `KeyError` (see the counterexample). -/
theorem claim3_amended_empty_polys_crop (cfg : CropCfg) (data : Record)
    (ps : List Poly) (ts : List String) (tags : List Bool)
    (hp : data.polys = some ps) (htx : data.texts = some ts)
    (hit : data.ignore_tags = some tags)
    (hlt : ts.length = ps.length) (hlg : tags.length = ps.length)
    (hign : ps = [] ∨ ∀ b ∈ tags, b = true)
    (hh : 1 ≤ data.image.1) (hw : 1 ≤ data.image.2)
    (rng rng' : ℕ → ℕ × ℕ × ℕ × ℕ) :
    findCrop cfg data.image ps tags rng = ((0, 0), data.image, false) ∧
      randomCrop cfg data rng = randomCrop cfg data rng' ∧
      ∃ r, randomCrop cfg data rng = some r ∧ r.image = cfg.cropSize := by
  have hnil : nonIgnoredOf ps tags = [] := by
    rcases hign with h0 | h0
    · subst h0
      rfl
    · unfold nonIgnoredOf
      apply List.filterMap_eq_nil_iff.mpr
      intro pt hmem
      have hb : pt.2 ∈ tags := (List.of_mem_zip hmem).2
      rw [h0 pt.2 hb]
      rfl
  have hE : (nonIgnoredOf ps tags).isEmpty = true := by simp [hnil]
  have hfc : ∀ rng0 : ℕ → ℕ × ℕ × ℕ × ℕ,
      findCrop cfg data.image ps tags rng0 = ((0, 0), data.image, false) := by
    intro rng0
    simp only [findCrop]
    rw [if_pos hE]
  refine ⟨hfc rng, ?_, ?_⟩
  · simp only [randomCrop, hp, hit]
    rw [hfc rng, hfc rng']
  · have hmul1 : min ((cfg.cropSize.1 : ℚ) / (data.image.1 : ℚ))
        ((cfg.cropSize.2 : ℚ) / (data.image.2 : ℚ)) * (data.image.1 : ℚ) ≤
        (cfg.cropSize.1 : ℚ) :=
      min_div_mul_le_left _ _ _ _ hh
    have hmul2 : min ((cfg.cropSize.1 : ℚ) / (data.image.1 : ℚ))
        ((cfg.cropSize.2 : ℚ) / (data.image.2 : ℚ)) * (data.image.2 : ℚ) ≤
        (cfg.cropSize.2 : ℚ) :=
      min_div_mul_le_right _ _ _ _ hw
    have hc1 : (npRound (min ((cfg.cropSize.1 : ℚ) / (data.image.1 : ℚ))
        ((cfg.cropSize.2 : ℚ) / (data.image.2 : ℚ)) *
          (data.image.1 : ℚ))).toNat ≤ cfg.cropSize.1 :=
      Int.toNat_le.mpr (npRound_le_of_le (by exact_mod_cast hmul1))
    have hc2 : (npRound (min ((cfg.cropSize.1 : ℚ) / (data.image.1 : ℚ))
        ((cfg.cropSize.2 : ℚ) / (data.image.2 : ℚ)) *
          (data.image.2 : ℚ))).toNat ≤ cfg.cropSize.2 :=
      Int.toNat_le.mpr (npRound_le_of_le (by exact_mod_cast hmul2))
    simp only [randomCrop, hp, hit, htx]
    rw [hfc rng]
    simp only [Nat.sub_zero]
    have hidx : ∀ i ∈ (List.range ps.length).filter
        (fun i => overlapTest (ps.getD i []) (0, 0) data.image),
        i < ps.length := fun i hi =>
      List.mem_range.mp (List.mem_filter.mp hi).1
    by_cases hie : ((List.range ps.length).filter
        (fun i => overlapTest (ps.getD i []) (0, 0) data.image)).isEmpty = true
    · have hLnil : (List.range ps.length).filter
          (fun i => overlapTest (ps.getD i []) (0, 0) data.image) = [] :=
        List.isEmpty_iff.mp hie
      rw [hLnil]
      simp only [List.isEmpty_nil, if_true, List.map_nil, List.mapM_nil]
      rw [if_neg Bool.false_ne_true]
      rw [if_pos ⟨hc1, hc2⟩]
      exact ⟨_, rfl, rfl⟩
    · rw [if_neg hie]
      obtain ⟨outT, hT⟩ := mapM_get?_eq_some ts _
        (fun i hi => hlt ▸ hidx i hi)
      obtain ⟨outG, hG⟩ := mapM_get?_eq_some tags _
        (fun i hi => hlg ▸ hidx i hi)
      rw [hT, hG]
      dsimp only
      rw [if_neg Bool.false_ne_true]
      rw [if_pos ⟨hc1, hc2⟩]
      exact ⟨_, rfl, rfl⟩

theorem claim3_amended_empty_polys_crop_witness :
    findCrop cfg3 rec3.image [] [] rngZero = ((0, 0), rec3.image, false) ∧
      randomCrop cfg3 rec3 rngZero = randomCrop cfg3 rec3 rng2 ∧
      ∃ r, randomCrop cfg3 rec3 rngZero = some r ∧ r.image = cfg3.cropSize :=
  claim3_amended_empty_polys_crop cfg3 rec3 [] [] [] rfl rfl rfl rfl rfl
    (Or.inl rfl) (by decide) (by decide) rngZero rng2

end MindOCR
